import Mathlib

set_option autoImplicit false

/-!
Shallow embedding of the "safe delete" trash subsystem
(`src/scripts/trash.ts`) and proofs about its behaviour.

Modelling choices:
* Paths are `String`s; the Node `path.posix` primitives (`normalize`,
  `resolve`, `join`, `basename`) are implemented lexically, following the
  Node algorithms (segment splitting, `.`/`..` elimination, trailing-slash
  rules).  Only the posix flavour is modelled, matching the macOS target.
* The filesystem is a finite set of paths (`Finset String`); `existsSync p`
  is membership.  Directory structure is not modelled beyond path strings.
* Fallible filesystem calls (`renameSync`, `cpSync`, `rmSync`) are driven by
  an oracle (`FsOracle`) that decides, per call, whether the call throws and
  with which JavaScript error value; theorems quantify over the oracle.
* `Bun.spawn` of the trash helper is an environment-supplied outcome:
  either the spawn throws, or the process runs with an exit code, captured
  stderr text, and an arbitrary effect on the filesystem.
* The process-wide memoised probe (`findTrashCliCommand`) is modelled with
  the cache (`undefined | string | null` becomes `Option (Option String)`)
  passed and returned explicitly; `movePathsToTrash` receives the probe's
  result as part of its environment.
-/

namespace Trash

/-! ### Character/string utilities (kernel-reducible re-implementations) -/

/-- Split a character list on a separator; pieces never contain the
separator.  `splitOnCharCore sep [] = [[]]`, matching JS `"".split`. -/
def splitOnCharCore (sep : Char) : List Char → List (List Char)
  | [] => [[]]
  | c :: rest =>
    match splitOnCharCore sep rest with
    | [] => [[c]]
    | s :: ss => if c = sep then [] :: s :: ss else (c :: s) :: ss

def splitOnChar (sep : Char) (s : String) : List String :=
  (splitOnCharCore sep s.data).map (fun cs => ⟨cs⟩)

/-- JS `s.startsWith(c)` for a one-character needle. -/
def headIs (s : String) (c : Char) : Bool :=
  match s.data with
  | [] => false
  | d :: _ => d = c

/-- JS `s.endsWith(c)` for a one-character needle. -/
def lastIs (s : String) (c : Char) : Bool :=
  match s.data.getLast? with
  | none => false
  | some d => d = c

/-- JS whitespace for `String.prototype.trim` (ASCII part). -/
def isJsWhitespace (c : Char) : Bool :=
  c = ' ' || c = '\t' || c = '\n' || c = '\r' || c = '\x0b' || c = '\x0c'

/-- JS `s.trim()`. -/
def trimJs (s : String) : String :=
  ⟨((s.data.dropWhile isJsWhitespace).reverse.dropWhile isJsWhitespace).reverse⟩

/-- Decimal digit character, as in `Nat.digitChar`. -/
def digitChar (n : Nat) : Char :=
  if n = 0 then '0' else if n = 1 then '1' else if n = 2 then '2'
  else if n = 3 then '3' else if n = 4 then '4' else if n = 5 then '5'
  else if n = 6 then '6' else if n = 7 then '7' else if n = 8 then '8'
  else if n = 9 then '9' else '*'

/-- Fuel-driven decimal conversion (the fuel `n + 1` always suffices, as in
the core `Nat.toDigits`). -/
def natToCharsCore : Nat → Nat → List Char → List Char
  | 0, _, acc => acc
  | fuel + 1, n, acc =>
    let d := digitChar (n % 10)
    if n < 10 then d :: acc
    else natToCharsCore fuel (n / 10) (d :: acc)

/-- Decimal representation of a natural number, as produced by JS template
interpolation of `Date.now()` / the attempt counter. -/
def natToChars (n : Nat) : List Char := natToCharsCore (n + 1) n []

def natToStr (n : Nat) : String := ⟨natToChars n⟩

/-! ### Node `path.posix` primitives -/

/-- Core of Node's `normalizeString`: processes the segments of a split
path, eliminating `""`, `"."` and resolving `".."` (kept at the front only
when `allow` — i.e. for relative paths).  Returns the surviving segments in
reverse order. -/
def normCore (allow : Bool) : List String → List String → List String
  | acc, [] => acc
  | acc, seg :: rest =>
    if seg = "" then normCore allow acc rest
    else if seg = "." then normCore allow acc rest
    else if seg = ".." then
      match acc with
      | [] => normCore allow (if allow then [".."] else []) rest
      | top :: below =>
        if top = ".." then
          normCore allow (if allow then ".." :: top :: below else top :: below) rest
        else normCore allow below rest
    else normCore allow (seg :: acc) rest

def normSegs (allow : Bool) (segs : List String) : List String :=
  (normCore allow [] segs).reverse

/-- Join segments with `"/"` (no filtering). -/
def joinSegs : List String → String
  | [] => ""
  | [s] => s
  | s :: t :: rest => s ++ "/" ++ joinSegs (t :: rest)

/-- Node `path.posix.normalize`. -/
def normalize (path : String) : String :=
  if path = "" then "."
  else
    let isAbs := headIs path '/'
    let trailing := lastIs path '/'
    let body := joinSegs (normSegs (!isAbs) (splitOnChar '/' path))
    if body = "" then
      if isAbs then "/" else if trailing then "./" else "."
    else
      let body := if trailing then body ++ "/" else body
      if isAbs then "/" ++ body else body

/-- One pass of Node `path.posix.resolve`'s right-to-left accumulation:
arguments are supplied already reversed; stops at the first absolute
component, falling back to the current working directory. -/
def resolveLoop (cwd : String) : List String → String → String × Bool
  | [], acc =>
    if cwd = "" then (acc, false)
    else (cwd ++ "/" ++ acc, headIs cwd '/')
  | p :: rest, acc =>
    if p = "" then resolveLoop cwd rest acc
    else if headIs p '/' then (p ++ "/" ++ acc, true)
    else resolveLoop cwd rest (p ++ "/" ++ acc)

/-- Node `path.posix.resolve(...args)`, with the process working directory
made explicit. -/
def resolve (cwd : String) (args : List String) : String :=
  let st := resolveLoop cwd args.reverse ""
  let body := joinSegs (normSegs (!st.2) (splitOnChar '/' st.1))
  if st.2 then "/" ++ body
  else if body = "" then "." else body

/-- Node `path.posix.join(...parts)`. -/
def joinAll (parts : List String) : String :=
  let joined := joinSegs (parts.filter (fun p => p ≠ ""))
  if joined = "" then "." else normalize joined

/-- Two-argument `path.posix.join`. -/
def join (a b : String) : String := joinAll [a, b]

/-- Node `path.posix.basename(p)` (no extension argument). -/
def basename (p : String) : String :=
  let t : List Char := (p.data.reverse.dropWhile (fun c => c = '/')).reverse
  if t = [] then ""
  else ⟨((splitOnCharCore '/' t).getLast?).getD []⟩

/-! ### JavaScript error values -/

/-- A thrown JavaScript value: either an `Error` instance (message plus an
optional `code` property, as on `NodeJS.ErrnoException`), or a non-`Error`
value rendered by `String(...)`. -/
inductive JsError where
  | mk (message : String) (code : Option String)
  | nonError (repr : String)
  deriving DecidableEq, Repr

/-- `formatTrashError` from `trash.ts`. -/
def formatTrashError : JsError → String
  | .mk message _ => message
  | .nonError repr => repr

/-- `isCrossDeviceError` from `trash.ts`:
`error instanceof Error && 'code' in error && error.code === 'EXDEV'`. -/
def isCrossDeviceError : JsError → Bool
  | .mk _ (some code) => code = "EXDEV"
  | _ => false

/-! ### Data model -/

/-- `MoveResult` from `trash.ts`. -/
structure MoveResult where
  missing : List String
  errors : List String
  deriving DecidableEq, Repr

/-- `resolvePath` from `trash.ts` (private helper): absolute inputs are
returned unchanged, relative ones are resolved against the base directory. -/
def resolvePath (cwd baseDir input : String) : String :=
  if headIs input '/' then input else resolve cwd [baseDir, input]

/-- The refused canonical paths: `normalize('/')`, the normalised base
directory, and each `refusePaths` entry resolved against the base directory
(contents of the JS `Set refuseCanonicals`; list membership models `has`). -/
def refuseCanonicalList (cwd baseDir : String) (refusePaths : List String) : List String :=
  normalize "/" :: normalize (resolve cwd [baseDir]) ::
    refusePaths.map (fun p => normalize (resolve cwd [baseDir, p]))

/-- The classification loop of `movePathsToTrash` (lines 33–52): walks the
raw paths in order; returns `.error rawPath` for the first path whose
canonical form is refused (the source `return`s there, discarding the
`missing` accumulated so far), otherwise the `missing` raw strings and the
`existing` raw/absolute pairs, both in input order. -/
def classify (cwd baseDir : String) (allowMissing : Bool) (refuse : List String)
    (fs : Finset String) : List String → Except String (List String × List (String × String))
  | [] => .ok ([], [])
  | rawPath :: rest =>
    let absolute := resolvePath cwd baseDir rawPath
    let canonical := normalize absolute
    if canonical ∈ refuse then .error rawPath
    else
      match classify cwd baseDir allowMissing refuse fs rest with
      | .error r => .error r
      | .ok (m, e) =>
        if absolute ∈ fs then .ok (m, (rawPath, absolute) :: e)
        else if allowMissing then .ok (m, e)
        else .ok (rawPath :: m, e)

/-- `getTrashDirectory` from `trash.ts`: `HOME/.Trash`, requiring `HOME` to
be set (and truthy) and the directory to exist. -/
def getTrashDirectory (home : Option String) (fs : Finset String) : Option String :=
  match home with
  | none => none
  | some h =>
    if h = "" then none
    else
      let trash := join h ".Trash"
      if trash ∈ fs then some trash else none

/-! ### Collision-safe target naming (`buildTrashTarget`) -/

/-- The candidate destination tried at loop iteration `n` of
`buildTrashTarget`: iteration 0 is the plain base name, iteration `n + 1`
appends the timestamp and, from the second disambiguation on, the attempt
counter `n`. -/
def candName (trashDir baseName : String) (timestamp : Nat) : Nat → String
  | 0 => join trashDir baseName
  | n + 1 =>
    join trashDir
      (baseName ++ "-" ++ natToStr timestamp ++ (if n > 0 then "-" ++ natToStr n else ""))

/-- Length of the longest path in the filesystem. -/
def maxLen (fs : Finset String) : Nat := fs.sup String.length

/-- The `while (existsSync(candidate))` loop of `buildTrashTarget`, with
explicit fuel (the wrapper below supplies fuel proven sufficient, so the
fuel-exhausted branch is never reached). -/
def buildLoop (fs : Finset String) (trashDir baseName : String) (timestamp : Nat) :
    Nat → Nat → String
  | 0, n => candName trashDir baseName timestamp n
  | fuel + 1, n =>
    let c := candName trashDir baseName timestamp n
    if c ∈ fs then buildLoop fs trashDir baseName timestamp fuel (n + 1) else c

/-- `buildTrashTarget` from `trash.ts`: first free candidate name inside the
trash directory.  A candidate with index `10 ^ maxLen fs + 1` is longer than
every existing path, hence free, so the supplied fuel always suffices. -/
def buildTrashTarget (fs : Finset String) (trashDir absolutePath : String)
    (timestamp : Nat) : String :=
  buildLoop fs trashDir (basename absolutePath) timestamp (10 ^ maxLen fs + 2) 0

/-! ### The direct mover -/

/-- Outcomes of the fallible filesystem calls, decided per call by the
environment: `renameErr s t = none` means `renameSync(s, t)` succeeds,
`some e` that it throws `e`; likewise for `cpSync` and `rmSync`. -/
structure FsOracle where
  renameErr : String → String → Option JsError
  cpErr : String → String → Option JsError
  rmErr : String → Option JsError

/-- One iteration of the direct-fallback loop (lines 87–103): build the
target, try the atomic rename, on a cross-device error copy then remove,
rethrow anything else into the per-item catch that formats the error.
Returns the optional error message and the updated filesystem. -/
def moveOne (trashDir : String) (orc : FsOracle) (timestamp : Nat)
    (raw absolute : String) (fs : Finset String) : Option String × Finset String :=
  let target := buildTrashTarget fs trashDir absolute timestamp
  match orc.renameErr absolute target with
  | none => (none, insert target (fs.erase absolute))
  | some e =>
    if isCrossDeviceError e then
      match orc.cpErr absolute target with
      | some ce => (some ("Failed to move " ++ raw ++ " to Trash: " ++ formatTrashError ce), fs)
      | none =>
        match orc.rmErr absolute with
        | some re =>
          (some ("Failed to move " ++ raw ++ " to Trash: " ++ formatTrashError re),
            insert target fs)
        | none => (none, (insert target fs).erase absolute)
    else (some ("Failed to move " ++ raw ++ " to Trash: " ++ formatTrashError e), fs)

/-- The `for (const item of existing)` loop of the direct fallback: items
are processed left to right, error messages collected in order, the
filesystem threaded through.  `tsOf i` is `Date.now()` at item `i`. -/
def moveLoop (trashDir : String) (orc : FsOracle) (tsOf : Nat → Nat) :
    Nat → List (String × String) → Finset String → List String × Finset String
  | _, [], fs => ([], fs)
  | i, (raw, absolute) :: rest, fs =>
    match moveOne trashDir orc (tsOf i) raw absolute fs with
    | (none, fs1) => moveLoop trashDir orc tsOf (i + 1) rest fs1
    | (some err, fs1) =>
      let r := moveLoop trashDir orc tsOf (i + 1) rest fs1
      (err :: r.1, r.2)

/-! ### `movePathsToTrash` -/

/-- Outcome of `Bun.spawn` for the helper invocation: the spawn throws, or
the process exits with a code, produces stderr text, and has some effect on
the filesystem (the helper's own moves, outside this subsystem). -/
inductive SpawnOutcome where
  | threw (e : JsError)
  | ran (exitCode : Int) (stderrText : String) (effect : Finset String → Finset String)

/-- Ambient state for one `movePathsToTrash` call: working directory,
initial filesystem, the memoised helper command (the value
`findTrashCliCommand` resolved to), the helper spawn behaviour as a
function of its argv, `process.env.HOME`, and `Date.now()` per item. -/
structure TrashEnv where
  cwd : String
  fs0 : Finset String
  trashCliCommand : Option String
  helperSpawn : List String → SpawnOutcome
  home : Option String
  tsOf : Nat → Nat

/-- Lines 78–105 of `movePathsToTrash`: locate the trash directory and run
the direct per-item mover. -/
def directFallback (env : TrashEnv) (orc : FsOracle) (missing : List String)
    (existing : List (String × String)) (fs : Finset String) : MoveResult × Finset String :=
  match getTrashDirectory env.home fs with
  | none => (⟨missing, ["Unable to locate macOS Trash directory (HOME/.Trash)."]⟩, fs)
  | some trashDir =>
    let r := moveLoop trashDir orc env.tsOf 0 existing fs
    (⟨missing, r.1⟩, r.2)

/-- Lines 54–105 of `movePathsToTrash`: what happens after classification.
An empty to-move set returns immediately; otherwise the helper is used when
available (a falsy — empty-string — command is skipped like `null`), with
the nonzero-exit/empty-stderr case falling through to the direct mover. -/
def runBatch (env : TrashEnv) (orc : FsOracle) (missing : List String)
    (existing : List (String × String)) : MoveResult × Finset String :=
  if existing.isEmpty then (⟨missing, []⟩, env.fs0)
  else
    match env.trashCliCommand with
    | some cmd =>
      if cmd = "" then directFallback env orc missing existing env.fs0
      else
        match env.helperSpawn (cmd :: existing.map Prod.snd) with
        | .threw e => (⟨missing, [formatTrashError e]⟩, env.fs0)
        | .ran exitCode stderrText effect =>
          let fs1 := effect env.fs0
          if exitCode = 0 then (⟨missing, []⟩, fs1)
          else if (trimJs stderrText).length > 0 then (⟨missing, [trimJs stderrText]⟩, fs1)
          else directFallback env orc missing existing fs1
    | none => directFallback env orc missing existing env.fs0

/-- `movePathsToTrash` from `trash.ts`, returning the `MoveResult` together
with the final filesystem state. -/
def movePathsToTrash (env : TrashEnv) (orc : FsOracle) (paths : List String)
    (baseDir : String) (allowMissing : Bool) (refusePaths : List String) :
    MoveResult × Finset String :=
  let refuse := refuseCanonicalList env.cwd baseDir refusePaths
  match classify env.cwd baseDir allowMissing refuse env.fs0 paths with
  | .error rawPath => (⟨[], ["Refusing to trash protected path: " ++ rawPath]⟩, env.fs0)
  | .ok (missing, existing) => runBatch env orc missing existing

/-! ### Helper probe (`findTrashCliCommand`) -/

def candidateNames : List String := ["trash-put", "trash"]

/-- Insertion-order deduplication, modelling `Set.add`. -/
def addUnique (xs : List String) (x : String) : List String :=
  if x ∈ xs then xs else xs ++ [x]

/-- Environment read by the probe: `process.env.PATH`,
`process.env.HOMEBREW_PREFIX`, and the outcome of
`Bun.spawn([candidate, '--help'])` — `none` when the spawn throws,
`some code` when the process exits with `code`. -/
structure ProbeEnv where
  pathVar : Option String
  homebrew : Option String
  probe : String → Option Int

/-- The `searchDirs` set, in insertion order. -/
def searchDirs (env : ProbeEnv) : List String :=
  let fromPath :=
    match env.pathVar with
    | none => []
    | some pv => if pv = "" then [] else (splitOnChar ':' pv).filter (fun s => s ≠ "")
  let hb := env.homebrew.getD "/opt/homebrew"
  (fromPath ++ [joinAll [hb, "opt", "trash", "bin"], "/usr/local/opt/trash/bin"]).foldl
    addUnique []

/-- The `candidatePaths` set, in insertion order: each candidate name bare,
then joined with every search directory. -/
def allCandidatePaths (env : ProbeEnv) : List String :=
  candidateNames.foldl
    (fun acc name =>
      (searchDirs env).foldl (fun a d => addUnique a (join d name)) (addUnique acc name))
    []

/-- A candidate qualifies exactly when its `--help` invocation spawns and
exits with status 0 or 1; a thrown spawn is caught and disqualifies. -/
def qualifies (probe : String → Option Int) (c : String) : Bool :=
  match probe c with
  | some code => code = 0 || code = 1
  | none => false

/-- The probing loop: first qualifying candidate, else `none`. -/
def probeCandidates (probe : String → Option Int) : List String → Option String
  | [] => none
  | c :: rest => if qualifies probe c then some c else probeCandidates probe rest

/-- `findTrashCliCommand` from `trash.ts`, with the module-level cache made
explicit: `none` is `undefined` (not yet probed), `some none` is a cached
`null`, `some (some c)` a cached command.  Returns the result and the new
cache. -/
def findTrashCliCommand (env : ProbeEnv) (cached : Option (Option String)) :
    Option String × Option (Option String) :=
  match cached with
  | some v => (v, some v)
  | none =>
    let r := probeCandidates env.probe (allCandidatePaths env)
    (r, some r)

/-! ### Concrete test fixtures (used by witness theorems) -/

/-- Oracle on which every filesystem call succeeds. -/
def orc0 : FsOracle := ⟨fun _ _ => none, fun _ _ => none, fun _ => none⟩

/-- Oracle on which every rename throws `EPERM` (a non-cross-device error). -/
def orcE : FsOracle :=
  ⟨fun _ _ => some (.mk "permission denied" (some "EPERM")), fun _ _ => none, fun _ => none⟩

/-- Oracle on which every rename throws `EXDEV` while copy and remove succeed. -/
def orcX : FsOracle :=
  ⟨fun _ _ => some (.mk "cross-device link not permitted" (some "EXDEV")),
    fun _ _ => none, fun _ => none⟩

/-- Oracle on which every rename throws `EXDEV` and the recursive copy of
the cross-device fallback then throws as well. -/
def orcXC : FsOracle :=
  ⟨fun _ _ => some (.mk "cross-device link not permitted" (some "EXDEV")),
    fun _ _ => some (.mk "copy failed" (some "EACCES")), fun _ => none⟩

/-- Oracle on which every rename throws `EXDEV`, the copy succeeds, and the
force-remove of the source then throws. -/
def orcXR : FsOracle :=
  ⟨fun _ _ => some (.mk "cross-device link not permitted" (some "EXDEV")),
    fun _ _ => none, fun _ => some (.mk "remove failed" (some "EBUSY"))⟩

/-- Bare environment: empty filesystem, no helper, no `HOME`. -/
def envW : TrashEnv :=
  { cwd := "/", fs0 := ∅, trashCliCommand := none,
    helperSpawn := fun _ => .threw (.nonError "spawn"), home := none, tsOf := fun _ => 0 }

/-- Environment where the helper is found but exits 1 with empty stderr,
while a direct move would succeed (`/w/a` exists, `/h/.Trash` exists). -/
def env2 : TrashEnv :=
  { cwd := "/", fs0 := {"/w/a", "/h/.Trash"}, trashCliCommand := some "trash",
    helperSpawn := fun _ => .ran 1 "" id, home := some "/h", tsOf := fun _ => 0 }

/-- Environment with `/work/secrets/key.pem` existing and no helper. -/
def env3 : TrashEnv :=
  { cwd := "/", fs0 := {"/work/secrets/key.pem"}, trashCliCommand := none,
    helperSpawn := fun _ => .threw (.nonError "spawn"), home := none, tsOf := fun _ => 0 }

/-- Environment with only `/w/a` existing and no helper. -/
def env4 : TrashEnv :=
  { cwd := "/", fs0 := {"/w/a"}, trashCliCommand := none,
    helperSpawn := fun _ => .threw (.nonError "spawn"), home := none, tsOf := fun _ => 0 }

end Trash

/-! ## Helper lemmas -/

namespace Trash

theorem mk_data (s : String) : (⟨s.data⟩ : String) = s := rfl

theorem eq_empty_iff_data (s : String) : s = "" ↔ s.data = [] := by
  constructor
  · intro h; rw [h]
  · intro h
    cases s with
    | mk d => exact congrArg String.mk h

theorem data_ne_of_ne_empty {s : String} (h : s ≠ "") : s.data ≠ [] :=
  fun e => h ((eq_empty_iff_data s).mpr e)

theorem length_pos_of_ne_empty {s : String} (h : s ≠ "") : 0 < s.length := by
  have hd := data_ne_of_ne_empty h
  have hd2 : s.data.length ≠ 0 := fun e => hd (List.length_eq_zero.mp e)
  have hlen : s.length = s.data.length := rfl
  omega

theorem ne_empty_of_length_pos {s : String} (h : 0 < s.length) : s ≠ "" := by
  intro e
  rw [e] at h
  exact absurd h (by decide)

theorem ne_special_of_dash {s : String} (h : '-' ∈ s.data) :
    s ≠ "" ∧ s ≠ "." ∧ s ≠ ".." := by
  refine ⟨?_, ?_, ?_⟩ <;> intro he <;> subst he <;> exact absurd h (by decide)

theorem natToCharsCore_length :
    ∀ (fuel n : Nat) (acc : List Char), n < fuel →
      acc.length + 1 ≤ (natToCharsCore fuel n acc).length := by
  intro fuel
  induction fuel with
  | zero => intro n acc h; omega
  | succ f ih =>
    intro n acc h
    by_cases h10 : n < 10
    · simp [natToCharsCore, h10]
    · have hlt : n / 10 < n := Nat.div_lt_self (by omega) (by norm_num)
      have hrec : n / 10 < f := by omega
      have := ih (n / 10) (digitChar (n % 10) :: acc) hrec
      simp only [natToCharsCore, h10, if_false, List.length_cons] at this ⊢
      omega

theorem natToCharsCore_length_pow :
    ∀ (k fuel n : Nat) (acc : List Char), n < fuel → 10 ^ k ≤ n →
      acc.length + k + 1 ≤ (natToCharsCore fuel n acc).length := by
  intro k
  induction k with
  | zero =>
    intro fuel n acc h _
    have := natToCharsCore_length fuel n acc h
    omega
  | succ k ih =>
    intro fuel n acc h hp
    have hk1 : (10 : Nat) ≤ 10 ^ (k + 1) := by
      have h1 : (1 : Nat) ≤ 10 ^ k := Nat.one_le_pow k 10 (by norm_num)
      calc (10 : Nat) = 1 * 10 := by ring
      _ ≤ 10 ^ k * 10 := Nat.mul_le_mul_right 10 h1
      _ = 10 ^ (k + 1) := by ring
    have h10 : ¬ n < 10 := by omega
    cases fuel with
    | zero => omega
    | succ f =>
      have hdiv : 10 ^ k ≤ n / 10 := by
        rw [Nat.le_div_iff_mul_le (by norm_num)]
        calc 10 ^ k * 10 = 10 ^ (k + 1) := by ring
        _ ≤ n := hp
      have hlt : n / 10 < n := Nat.div_lt_self (by omega) (by norm_num)
      have hrec : n / 10 < f := by omega
      have := ih f (n / 10) (digitChar (n % 10) :: acc) hrec hdiv
      simp only [natToCharsCore, h10, if_false, List.length_cons] at this ⊢
      omega

theorem natToChars_length_pow (k n : Nat) (h : 10 ^ k ≤ n) :
    k + 1 ≤ (natToChars n).length := by
  have := natToCharsCore_length_pow k (n + 1) n [] (by omega) h
  simpa [natToChars] using this

theorem digitChar_ne (m : Nat) : digitChar m ≠ '/' ∧ digitChar m ≠ '-' := by
  unfold digitChar
  repeat' split
  all_goals decide

theorem natToCharsCore_forall (P : Char → Prop) (hP : ∀ m, P (digitChar m)) :
    ∀ (fuel n : Nat) (acc : List Char), (∀ c ∈ acc, P c) →
      ∀ c ∈ natToCharsCore fuel n acc, P c := by
  intro fuel
  induction fuel with
  | zero => intro n acc hacc c hc; exact hacc c hc
  | succ f ih =>
    intro n acc hacc c hc
    by_cases h10 : n < 10
    · simp only [natToCharsCore, h10, if_true] at hc
      rcases List.mem_cons.mp hc with rfl | hc'
      · exact hP _
      · exact hacc c hc'
    · simp only [natToCharsCore, h10, if_false] at hc
      refine ih (n / 10) (digitChar (n % 10) :: acc) ?_ c hc
      intro c' hc'
      rcases List.mem_cons.mp hc' with rfl | hc''
      · exact hP _
      · exact hacc c' hc''

theorem natToChars_no_slash (n : Nat) : '/' ∉ natToChars n := by
  intro h
  have := natToCharsCore_forall (fun c => c ≠ '/') (fun m => (digitChar_ne m).1)
    (n + 1) n [] (by intro c hc; exact absurd hc (List.not_mem_nil c)) '/' h
  exact this rfl

theorem splitOnCharCore_ne_nil (sep : Char) :
    ∀ cs : List Char, splitOnCharCore sep cs ≠ [] := by
  intro cs
  cases cs with
  | nil => simp [splitOnCharCore]
  | cons c rest =>
    simp only [splitOnCharCore]
    cases h : splitOnCharCore sep rest with
    | nil => simp
    | cons s ss => by_cases hc : c = sep <;> simp [hc]

theorem splitOnCharCore_sep_free (sep : Char) :
    ∀ cs : List Char, sep ∉ cs → splitOnCharCore sep cs = [cs] := by
  intro cs
  induction cs with
  | nil => intro _; rfl
  | cons c rest ih =>
    intro h
    have hc : ¬ c = sep := fun e => h (e ▸ List.mem_cons_self c rest)
    have hrest : sep ∉ rest := fun e => h (List.mem_cons_of_mem c e)
    simp [splitOnCharCore, ih hrest, hc]

theorem splitOnCharCore_append (sep : Char) (ys : List Char) (hys : sep ∉ ys) :
    ∀ zs : List Char,
      splitOnCharCore sep (zs ++ sep :: ys) = splitOnCharCore sep zs ++ [ys] := by
  intro zs
  induction zs with
  | nil =>
    simp [splitOnCharCore, splitOnCharCore_sep_free sep ys hys]
  | cons z zs' ih =>
    simp only [List.cons_append, splitOnCharCore, List.append_eq]
    rw [ih]
    cases h : splitOnCharCore sep zs' with
    | nil => exact absurd h (splitOnCharCore_ne_nil sep zs')
    | cons s ss =>
      by_cases hz : z = sep <;> simp [hz]

theorem splitOnCharCore_pieces (sep : Char) :
    ∀ (cs piece : List Char), piece ∈ splitOnCharCore sep cs → sep ∉ piece := by
  intro cs
  induction cs with
  | nil =>
    intro piece hp
    simp [splitOnCharCore] at hp
    subst hp; simp
  | cons c rest ih =>
    intro piece hp
    simp only [splitOnCharCore] at hp
    cases h : splitOnCharCore sep rest with
    | nil => exact absurd h (splitOnCharCore_ne_nil sep rest)
    | cons s ss =>
      rw [h] at hp
      by_cases hc : c = sep
      · simp only [hc, if_true] at hp
        rcases List.mem_cons.mp hp with rfl | hp'
        · simp
        · exact ih piece (h ▸ hp')
      · simp only [hc, if_false] at hp
        rcases List.mem_cons.mp hp with rfl | hp'
        · intro hmem
          rcases List.mem_cons.mp hmem with rfl | hmem'
          · exact hc rfl
          · exact ih s (h ▸ List.mem_cons_self s ss) hmem'
        · exact ih piece (h ▸ List.mem_cons_of_mem s hp')

theorem basename_no_slash (p : String) : '/' ∉ (basename p).data := by
  unfold basename
  by_cases h : ((p.data.reverse.dropWhile (fun c => c = '/')).reverse : List Char) = []
  · simp [h]
  · simp only [h, if_false]
    set t := (p.data.reverse.dropWhile (fun c => c = '/')).reverse with ht
    cases hl : (splitOnCharCore '/' t).getLast? with
    | none => simp
    | some piece =>
      have hmem : piece ∈ splitOnCharCore '/' t := by
        obtain ⟨hne, heq⟩ := List.mem_getLast?_eq_getLast hl
        exact heq ▸ List.getLast_mem hne
      simpa using splitOnCharCore_pieces '/' t piece hmem

theorem headIs_eq_false_of_no_slash {s : String} (h : '/' ∉ s.data) :
    headIs s '/' = false := by
  unfold headIs
  cases hd : s.data with
  | nil => rfl
  | cons c rest =>
    have hc : ¬ c = '/' := fun e => h (hd ▸ (e ▸ List.mem_cons_self c rest))
    simp [hc]

theorem lastIs_append_of_ne_nil {b : String} (a : String) (h : b.data ≠ []) (c : Char) :
    lastIs (a ++ b) c = lastIs b c := by
  unfold lastIs
  rw [String.data_append, List.getLast?_append_of_ne_nil a.data h]

theorem lastIs_eq_false_of_no_slash {s : String} (h : '/' ∉ s.data) :
    lastIs s '/' = false := by
  unfold lastIs
  cases hl : s.data.getLast? with
  | none => rfl
  | some d =>
    have hmem : d ∈ s.data := by
      obtain ⟨hne, heq⟩ := List.mem_getLast?_eq_getLast hl
      exact heq ▸ List.getLast_mem hne
    have hd : ¬ d = '/' := fun e => h (e ▸ hmem)
    simp [hd]

theorem splitOnChar_append_seg (a seg : String) (hseg : '/' ∉ seg.data) :
    splitOnChar '/' (a ++ "/" ++ seg) = splitOnChar '/' a ++ [seg] := by
  unfold splitOnChar
  have hdata : (a ++ "/" ++ seg).data = a.data ++ '/' :: seg.data := by
    simp [String.data_append]
  rw [hdata, splitOnCharCore_append '/' seg.data hseg a.data]
  simp [mk_data]

theorem normCore_append_normal (allow : Bool) (seg : String)
    (h0 : seg ≠ "") (h1 : seg ≠ ".") (h2 : seg ≠ "..") :
    ∀ (ss acc : List String),
      normCore allow acc (ss ++ [seg]) = seg :: normCore allow acc ss := by
  intro ss
  induction ss with
  | nil => intro acc; simp [normCore, h0, h1, h2]
  | cons s rest ih =>
    intro acc
    by_cases hs0 : s = ""
    · simp [normCore, hs0, ih]
    · by_cases hs1 : s = "."
      · simp [normCore, hs0, hs1, ih]
      · by_cases hs2 : s = ".."
        · cases acc with
          | nil => simp [normCore, hs0, hs1, hs2, ih]
          | cons top below =>
            by_cases ht : top = ".."
            · simp [normCore, hs0, hs1, hs2, ht, ih]
            · simp [normCore, hs0, hs1, hs2, ht, ih]
        · simp [normCore, hs0, hs1, hs2, ih]

theorem normSegs_append_normal (allow : Bool) (seg : String)
    (h0 : seg ≠ "") (h1 : seg ≠ ".") (h2 : seg ≠ "..") (ss : List String) :
    normSegs allow (ss ++ [seg]) = normSegs allow ss ++ [seg] := by
  simp [normSegs, normCore_append_normal allow seg h0 h1 h2 ss]

theorem joinSegs_cons (x : String) (l : List String) (h : l ≠ []) :
    joinSegs (x :: l) = x ++ "/" ++ joinSegs l := by
  cases l with
  | nil => exact absurd rfl h
  | cons t rest => rfl

theorem joinSegs_length_ge (seg : String) :
    ∀ l : List String, seg.length ≤ (joinSegs (l ++ [seg])).length := by
  intro l
  induction l with
  | nil => simp [joinSegs]
  | cons x rest ih =>
    rw [List.cons_append, joinSegs_cons x (rest ++ [seg]) (by simp)]
    simp only [String.length_append]
    omega

theorem normalize_atom {seg : String} (hsl : '/' ∉ seg.data)
    (h0 : seg ≠ "") (h1 : seg ≠ ".") (h2 : seg ≠ "..") : normalize seg = seg := by
  have hh : headIs seg '/' = false := headIs_eq_false_of_no_slash hsl
  have hl : lastIs seg '/' = false := lastIs_eq_false_of_no_slash hsl
  have hsplit : splitOnChar '/' seg = [seg] := by
    unfold splitOnChar
    rw [splitOnCharCore_sep_free '/' seg.data hsl]
    simp [mk_data]
  have hns : normSegs true [seg] = [seg] := by
    simp [normSegs, normCore, h0, h1, h2]
  unfold normalize
  rw [if_neg h0, hh, hl]
  simp only [Bool.not_false, hsplit, hns, if_false]
  simp [joinSegs, h0]

theorem normalize_append_length (a seg : String) (hsl : '/' ∉ seg.data)
    (h0 : seg ≠ "") (h1 : seg ≠ ".") (h2 : seg ≠ "..") :
    seg.length ≤ (normalize (a ++ "/" ++ seg)).length := by
  have hdat : seg.data ≠ [] := data_ne_of_ne_empty h0
  have hpath : a ++ "/" ++ seg ≠ "" := by
    apply ne_empty_of_length_pos
    have := length_pos_of_ne_empty h0
    simp only [String.length_append]
    omega
  have htrail : lastIs (a ++ "/" ++ seg) '/' = false := by
    rw [lastIs_append_of_ne_nil (a ++ "/") hdat '/']
    exact lastIs_eq_false_of_no_slash hsl
  have hsplit := splitOnChar_append_seg a seg hsl
  have hbodylen : ∀ allow : Bool,
      seg.length ≤ (joinSegs (normSegs allow (splitOnChar '/' (a ++ "/" ++ seg)))).length := by
    intro allow
    rw [hsplit, normSegs_append_normal allow seg h0 h1 h2]
    exact joinSegs_length_ge seg (normSegs allow (splitOnChar '/' a))
  unfold normalize
  rw [if_neg hpath, htrail]
  cases hb : headIs (a ++ "/" ++ seg) '/' with
  | false =>
    simp only [Bool.not_false, if_false]
    have hlen := hbodylen true
    by_cases hbody : joinSegs (normSegs true (splitOnChar '/' (a ++ "/" ++ seg))) = ""
    · rw [hbody] at hlen
      have := length_pos_of_ne_empty h0
      simp at hlen
      omega
    · simp only [hbody, if_false, if_neg hbody]
      exact hlen
  | true =>
    simp only [Bool.not_true, if_false]
    have hlen := hbodylen false
    by_cases hbody : joinSegs (normSegs false (splitOnChar '/' (a ++ "/" ++ seg))) = ""
    · rw [hbody] at hlen
      have := length_pos_of_ne_empty h0
      simp at hlen
      omega
    · simp only [hbody, if_false, if_neg hbody, if_true, Bool.false_eq_true,
        String.length_append]
      omega

theorem join_length_ge {seg : String} (td : String) (hsl : '/' ∉ seg.data)
    (hd : '-' ∈ seg.data) : seg.length ≤ (join td seg).length := by
  obtain ⟨h0, h1, h2⟩ := ne_special_of_dash hd
  by_cases htd : td = ""
  · subst htd
    have hfil : (["", seg].filter (fun p => p ≠ "")) = [seg] := by simp [h0]
    have hj : join "" seg = normalize seg := by
      unfold join joinAll
      rw [hfil]
      simp [joinSegs, h0]
    rw [hj, normalize_atom hsl h0 h1 h2]
  · have hfil : ([td, seg].filter (fun p => p ≠ "")) = [td, seg] := by simp [htd, h0]
    have hjs : joinSegs [td, seg] = td ++ "/" ++ seg := rfl
    have hne : td ++ "/" ++ seg ≠ "" := by
      apply ne_empty_of_length_pos
      have := length_pos_of_ne_empty h0
      simp only [String.length_append]
      omega
    have hj : join td seg = normalize (td ++ "/" ++ seg) := by
      unfold join joinAll
      rw [hfil, hjs, if_neg hne]
    rw [hj]
    exact normalize_append_length td seg hsl h0 h1 h2

theorem candName_le_length (td base : String) (hb : '/' ∉ base.data) (ts n : Nat)
    (hn : 0 < n) : (natToStr n).length ≤ (candName td base ts (n + 1)).length := by
  have hsuf : (if n > 0 then "-" ++ natToStr n else "") = "-" ++ natToStr n := by
    simp [hn]
  have hseg : candName td base ts (n + 1) =
      join td (base ++ "-" ++ natToStr ts ++ ("-" ++ natToStr n)) := by
    rw [candName, hsuf]
  set seg := base ++ "-" ++ natToStr ts ++ ("-" ++ natToStr n) with hsegdef
  have hdash : '-' ∈ seg.data := by
    rw [hsegdef]
    simp only [String.data_append]
    have hm : '-' ∈ ("-" : String).data := by decide
    exact List.mem_append_right _ (List.mem_append_left _ hm)
  have hslash : '/' ∉ seg.data := by
    rw [hsegdef]
    simp only [String.data_append]
    intro hmem
    rcases List.mem_append.mp hmem with hmem1 | hmem2
    · rcases List.mem_append.mp hmem1 with hmem3 | hmem4
      · rcases List.mem_append.mp hmem3 with hmem5 | hmem6
        · exact hb hmem5
        · exact absurd hmem6 (by decide)
      · exact natToChars_no_slash ts hmem4
    · rcases List.mem_append.mp hmem2 with hmem5 | hmem6
      · exact absurd hmem5 (by decide)
      · exact natToChars_no_slash n hmem6
  have hlen : (natToStr n).length ≤ seg.length := by
    rw [hsegdef]
    simp only [String.length_append]
    omega
  rw [hseg]
  exact le_trans hlen (join_length_ge td hslash hdash)

theorem mem_length_le_maxLen {fs : Finset String} {s : String} (h : s ∈ fs) :
    s.length ≤ maxLen fs := Finset.le_sup h

theorem exists_free_cand (fs : Finset String) (td base : String) (hb : '/' ∉ base.data)
    (ts : Nat) : ∃ j, j < 10 ^ maxLen fs + 2 ∧ candName td base ts j ∉ fs := by
  refine ⟨10 ^ maxLen fs + 1, by omega, ?_⟩
  intro hmem
  have hlen_le : (candName td base ts (10 ^ maxLen fs + 1)).length ≤ maxLen fs :=
    mem_length_le_maxLen hmem
  have hpos : 0 < 10 ^ maxLen fs := by
    have := Nat.one_le_pow (maxLen fs) 10 (by norm_num)
    omega
  have h1 : maxLen fs + 1 ≤ (natToChars (10 ^ maxLen fs)).length :=
    natToChars_length_pow (maxLen fs) (10 ^ maxLen fs) (le_refl _)
  have h1a : (natToStr (10 ^ maxLen fs)).length = (natToChars (10 ^ maxLen fs)).length := rfl
  have h2 : (natToStr (10 ^ maxLen fs)).length ≤
      (candName td base ts (10 ^ maxLen fs + 1)).length :=
    candName_le_length td base hb ts _ hpos
  omega

theorem buildLoop_spec (fs : Finset String) (td base : String) (ts : Nat) :
    ∀ (fuel n : Nat), (∃ j, j < fuel ∧ candName td base ts (n + j) ∉ fs) →
      ∃ j, (∀ i, i < j → candName td base ts (n + i) ∈ fs) ∧
        buildLoop fs td base ts fuel n = candName td base ts (n + j) ∧
        candName td base ts (n + j) ∉ fs := by
  intro fuel
  induction fuel with
  | zero =>
    rintro n ⟨j, hj, -⟩
    omega
  | succ f ih =>
    rintro n ⟨j0, hj0, hfree⟩
    by_cases hc : candName td base ts n ∈ fs
    · have hex : ∃ j, j < f ∧ candName td base ts ((n + 1) + j) ∉ fs := by
        cases j0 with
        | zero => exact absurd (by simpa using hc) (by simpa using hfree)
        | succ j1 =>
          exact ⟨j1, by omega, by rw [show n + 1 + j1 = n + (j1 + 1) from by omega]; exact hfree⟩
      obtain ⟨j, hall, heq, hfr⟩ := ih (n + 1) hex
      refine ⟨j + 1, ?_, ?_, ?_⟩
      · intro i hi
        cases i with
        | zero => simpa using hc
        | succ i1 =>
          have := hall i1 (by omega)
          rw [show n + (i1 + 1) = n + 1 + i1 from by omega]
          exact this
      · rw [show buildLoop fs td base ts (f + 1) n = buildLoop fs td base ts f (n + 1) from
          by simp [buildLoop, hc]]
        rw [heq, show n + 1 + j = n + (j + 1) from by omega]
      · rw [show n + (j + 1) = n + 1 + j from by omega]
        exact hfr
    · exact ⟨0, by intro i hi; omega, by simp [buildLoop, hc], by simpa using hc⟩

theorem buildTrashTarget_spec (fs : Finset String) (td absPath : String) (ts : Nat) :
    buildTrashTarget fs td absPath ts ∉ fs ∧
      ∃ n, buildTrashTarget fs td absPath ts = candName td (basename absPath) ts n ∧
        ∀ m, m < n → candName td (basename absPath) ts m ∈ fs := by
  obtain ⟨j, hj, hfree⟩ :=
    exists_free_cand fs td (basename absPath) (basename_no_slash absPath) ts
  obtain ⟨j', hall, heq, hfr⟩ :=
    buildLoop_spec fs td (basename absPath) ts (10 ^ maxLen fs + 2) 0
      ⟨j, hj, by simpa using hfree⟩
  constructor
  · rw [buildTrashTarget, heq]
    simpa using hfr
  · exact ⟨j', by rw [buildTrashTarget, heq]; simp, fun m hm => by simpa using hall m hm⟩

theorem buildTrashTarget_not_mem (fs : Finset String) (td absPath : String) (ts : Nat) :
    buildTrashTarget fs td absPath ts ∉ fs :=
  (buildTrashTarget_spec fs td absPath ts).1

theorem probeCandidates_eq_find (probe : String → Option Int) (cs : List String) :
    probeCandidates probe cs = cs.find? (qualifies probe) := by
  induction cs with
  | nil => rfl
  | cons c rest ih =>
    by_cases h : qualifies probe c
    · simp [probeCandidates, List.find?, h]
    · simp only [Bool.not_eq_true] at h
      simp [probeCandidates, List.find?, h, ih]

theorem classify_error_of_offends (cwd baseDir : String) (allowMissing : Bool)
    (refuse : List String) (fs : Finset String) :
    ∀ paths : List String,
      (∃ p ∈ paths, normalize (resolvePath cwd baseDir p) ∈ refuse) →
      ∃ r ∈ paths, normalize (resolvePath cwd baseDir r) ∈ refuse ∧
        classify cwd baseDir allowMissing refuse fs paths = .error r := by
  intro paths
  induction paths with
  | nil => rintro ⟨p, hp, -⟩; exact absurd hp (List.not_mem_nil p)
  | cons q rest ih =>
    intro h
    by_cases hq : normalize (resolvePath cwd baseDir q) ∈ refuse
    · exact ⟨q, List.mem_cons_self q rest, hq, by simp [classify, hq]⟩
    · obtain ⟨p, hp, hpr⟩ := h
      rcases List.mem_cons.mp hp with rfl | hp'
      · exact absurd hpr hq
      · obtain ⟨r, hr, hrr, hcl⟩ := ih ⟨p, hp', hpr⟩
        exact ⟨r, List.mem_cons_of_mem q hr, hrr, by simp [classify, hq, hcl]⟩

theorem classify_ok_of_no_offense (cwd baseDir : String) (allowMissing : Bool)
    (refuse : List String) (fs : Finset String) :
    ∀ paths : List String,
      (∀ p ∈ paths, normalize (resolvePath cwd baseDir p) ∉ refuse) →
      classify cwd baseDir allowMissing refuse fs paths =
        .ok (if allowMissing then []
              else paths.filter (fun p => !decide (resolvePath cwd baseDir p ∈ fs)),
             (paths.filter (fun p => decide (resolvePath cwd baseDir p ∈ fs))).map
               (fun p => (p, resolvePath cwd baseDir p))) := by
  intro paths
  induction paths with
  | nil => intro _; cases allowMissing <;> simp [classify]
  | cons q rest ih =>
    intro h
    have hq := h q (List.mem_cons_self q rest)
    have hrest := ih (fun p hp => h p (List.mem_cons_of_mem q hp))
    by_cases hex : resolvePath cwd baseDir q ∈ fs
    · cases allowMissing <;> simp [classify, hq, hrest, hex, List.filter]
    · cases allowMissing <;> simp [classify, hq, hrest, hex, List.filter]

theorem runBatch_missing (env : TrashEnv) (orc : FsOracle) (missing : List String)
    (existing : List (String × String)) :
    (runBatch env orc missing existing).1.missing = missing := by
  unfold runBatch directFallback
  by_cases he : existing.isEmpty
  · simp [he]
  · cases hc : env.trashCliCommand with
    | none =>
      cases hg : getTrashDirectory env.home env.fs0 <;> simp [he, hc, hg]
    | some cmd =>
      by_cases hcmd : cmd = ""
      · cases hg : getTrashDirectory env.home env.fs0 <;> simp [he, hc, hcmd, hg]
      · cases hs : env.helperSpawn (cmd :: existing.map Prod.snd) with
        | threw e => simp [he, hc, hcmd, hs]
        | ran exitCode stderrText effect =>
          by_cases hz : exitCode = 0
          · simp [he, hc, hcmd, hs, hz]
          · by_cases hstderr : (trimJs stderrText).length > 0
            · simp [he, hc, hcmd, hs, hz, hstderr]
            · cases hg : getTrashDirectory env.home (effect env.fs0) <;>
                simp [he, hc, hcmd, hs, hz, hstderr, hg]

theorem moveLoop_append (trashDir : String) (orc : FsOracle) (tsOf : Nat → Nat) :
    ∀ (xs ys : List (String × String)) (i : Nat) (fs : Finset String),
      moveLoop trashDir orc tsOf i (xs ++ ys) fs =
        ((moveLoop trashDir orc tsOf i xs fs).1 ++
            (moveLoop trashDir orc tsOf (i + xs.length) ys
              (moveLoop trashDir orc tsOf i xs fs).2).1,
          (moveLoop trashDir orc tsOf (i + xs.length) ys
            (moveLoop trashDir orc tsOf i xs fs).2).2) := by
  intro xs
  induction xs with
  | nil => intro ys i fs; simp [moveLoop]
  | cons x rest ih =>
    intro ys i fs
    obtain ⟨raw, absolute⟩ := x
    cases hmv : moveOne trashDir orc (tsOf i) raw absolute fs with
    | mk oerr fs1 =>
      have h1 : i + 1 + rest.length = i + (rest.length + 1) := by omega
      cases oerr with
      | none =>
        simp only [List.cons_append, moveLoop, hmv, List.length_cons, List.append_eq, ih, h1]
      | some err =>
        simp only [List.cons_append, moveLoop, hmv, List.length_cons, List.append_eq, ih, h1]

theorem count_filter_map_pair (absf : String → String) (fs : Finset String) (p : String)
    (hex : absf p ∈ fs) :
    ∀ paths : List String,
      ((paths.filter (fun q => decide (absf q ∈ fs))).map (fun q => (q, absf q))).count
        (p, absf p) = paths.count p := by
  intro paths
  induction paths with
  | nil => simp
  | cons q rest ih =>
    by_cases hq : q = p
    · subst hq
      simp [List.filter_cons, hex, List.count_cons, ih]
    · by_cases hqf : absf q ∈ fs
      · have hpair : (q, absf q) ≠ (p, absf p) := by
          intro hp
          exact hq (congrArg Prod.fst hp)
        simp [List.filter_cons, hqf, List.count_cons, hpair, ih, hq]
      · simp [List.filter_cons, hqf, List.count_cons, ih, hq]

theorem count_filter_map_snd (absf : String → String) (fs : Finset String) (p : String)
    (hex : absf p ∈ fs) :
    ∀ paths : List String, (∀ q ∈ paths, q ≠ p → absf q ≠ absf p) →
      ((paths.filter (fun q => decide (absf q ∈ fs))).map absf).count (absf p) =
        paths.count p := by
  intro paths
  induction paths with
  | nil => intro _; simp
  | cons q rest ih =>
    intro hdis
    have hrest := fun q hq => hdis q (List.mem_cons_of_mem _ hq)
    by_cases hq : q = p
    · subst hq
      simp [List.filter_cons, hex, List.count_cons, ih hrest]
    · have hne : absf q ≠ absf p := hdis q (List.mem_cons_self q rest) hq
      by_cases hqf : absf q ∈ fs
      · simp [List.filter_cons, hqf, List.count_cons, hne, ih hrest, hq]
      · simp [List.filter_cons, hqf, List.count_cons, ih hrest, hq]

end Trash

/-! ## Claim theorems -/

namespace Trash

/-- Claim C1: for every batch containing a path whose canonical absolute
form is protected (filesystem root, normalised base directory, or a
`refusePaths` entry resolved against the base directory), `movePathsToTrash`
returns empty `missing` and exactly one error naming the offending raw
path, and the filesystem is left exactly as it was — no item of the batch
is moved, including ones already classified as existing. -/
theorem refusal_aborts_batch (env : TrashEnv) (orc : FsOracle) (paths : List String)
    (baseDir : String) (allowMissing : Bool) (refusePaths : List String)
    (h : ∃ p ∈ paths, normalize (resolvePath env.cwd baseDir p) ∈
      refuseCanonicalList env.cwd baseDir refusePaths) :
    ∃ r ∈ paths,
      normalize (resolvePath env.cwd baseDir r) ∈
          refuseCanonicalList env.cwd baseDir refusePaths ∧
        movePathsToTrash env orc paths baseDir allowMissing refusePaths =
          (⟨[], ["Refusing to trash protected path: " ++ r]⟩, env.fs0) := by
  obtain ⟨r, hr, hrr, hcl⟩ := classify_error_of_offends env.cwd baseDir allowMissing
    (refuseCanonicalList env.cwd baseDir refusePaths) env.fs0 paths h
  exact ⟨r, hr, hrr, by simp [movePathsToTrash, hcl]⟩

/-- Witness for C1: trashing `"/"` below base directory `/work` is refused
with one error and an unchanged (empty) filesystem. -/
theorem refusal_aborts_batch_witness :
    ∃ r ∈ ["/"],
      normalize (resolvePath envW.cwd "/work" r) ∈ refuseCanonicalList envW.cwd "/work" [] ∧
        movePathsToTrash envW orc0 ["/"] "/work" false [] =
          (⟨[], ["Refusing to trash protected path: " ++ r]⟩, envW.fs0) :=
  refusal_aborts_batch envW orc0 ["/"] "/work" false [] ⟨"/", by decide, by decide⟩

/-- Claim C2 (counterexample): with the helper found, exiting nonzero with
empty stderr, and a direct move available, the outcome records no error and
the filesystem changes — the direct fallback IS attempted and the helper
failure is dropped, contradicting the claim that the fallback is not
attempted and the failure is surfaced. -/
theorem helper_empty_stderr_counterexample :
    (movePathsToTrash env2 orc0 ["a"] "/w" false []).1.errors = [] ∧
      (movePathsToTrash env2 orc0 ["a"] "/w" false []).2 ≠ env2.fs0 := by decide

/-- Claim C2 (amended): when the helper command is found (and truthy) and
its process exits nonzero with stderr that is empty after trimming, the
batch falls through to the direct fallback, run on the post-helper
filesystem state, with no helper error recorded.  (Only a thrown spawn is
surfaced without fallback.) -/
theorem helper_empty_stderr_falls_through (env : TrashEnv) (orc : FsOracle)
    (paths : List String) (baseDir : String) (allowMissing : Bool) (refusePaths : List String)
    (m : List String) (e : List (String × String)) (cmd : String) (exitCode : Int)
    (stderrText : String) (effect : Finset String → Finset String)
    (hcls : classify env.cwd baseDir allowMissing
      (refuseCanonicalList env.cwd baseDir refusePaths) env.fs0 paths = .ok (m, e))
    (hne : e ≠ [])
    (hcmd : env.trashCliCommand = some cmd) (hcmd2 : cmd ≠ "")
    (hspawn : env.helperSpawn (cmd :: e.map Prod.snd) = .ran exitCode stderrText effect)
    (hexit : exitCode ≠ 0) (hstderr : trimJs stderrText = "") :
    movePathsToTrash env orc paths baseDir allowMissing refusePaths =
      directFallback env orc m e (effect env.fs0) := by
  have hni : e.isEmpty = false := by
    cases e with
    | nil => exact absurd rfl hne
    | cons x xs => rfl
  simp [movePathsToTrash, hcls, runBatch, hni, hcmd, hcmd2, hspawn, hexit, hstderr]

/-- Witness for the amended C2: in the concrete helper-exits-1-silently
environment, the call equals the direct fallback on the post-helper state. -/
theorem helper_empty_stderr_falls_through_witness :
    movePathsToTrash env2 orc0 ["a"] "/w" false [] =
      directFallback env2 orc0 [] [("a", "/w/a")] (id env2.fs0) :=
  helper_empty_stderr_falls_through env2 orc0 ["a"] "/w" false [] [] [("a", "/w/a")]
    "trash" 1 "" id rfl (by decide) rfl (by decide) rfl (by decide) rfl

/-- Claim C3: protection is decided by exact string equality of canonical
forms only.  If no input path's canonical form is string-equal to any
protected canonical (even when it lies strictly underneath one), the batch
is not refused: classification succeeds and the call proceeds to the
post-classification pipeline. -/
theorem refusal_exact_match_only (env : TrashEnv) (orc : FsOracle) (paths : List String)
    (baseDir : String) (allowMissing : Bool) (refusePaths : List String)
    (h : ∀ p ∈ paths, ∀ r ∈ refuseCanonicalList env.cwd baseDir refusePaths,
      normalize (resolvePath env.cwd baseDir p) ≠ r) :
    ∃ m e,
      classify env.cwd baseDir allowMissing (refuseCanonicalList env.cwd baseDir refusePaths)
          env.fs0 paths = .ok (m, e) ∧
        movePathsToTrash env orc paths baseDir allowMissing refusePaths =
          runBatch env orc m e := by
  have h' : ∀ p ∈ paths, normalize (resolvePath env.cwd baseDir p) ∉
      refuseCanonicalList env.cwd baseDir refusePaths := fun p hp hmem => h p hp _ hmem rfl
  have hc := classify_ok_of_no_offense env.cwd baseDir allowMissing _ env.fs0 paths h'
  exact ⟨_, _, hc, by simp [movePathsToTrash, hc]⟩

/-- Witness for C3, the spec's end-to-end scenario: `refusePaths =
["secrets"]` protects exactly `/work/secrets`; the batch path
`secrets/key.pem` canonicalises to `/work/secrets/key.pem`, which lies
strictly underneath `/work/secrets` (it extends it by `/key.pem`) yet is
not refused. -/
theorem refusal_exact_match_only_witness :
    refuseCanonicalList "/" "/work" ["secrets"] = ["/", "/work", "/work/secrets"] ∧
      normalize (resolvePath "/" "/work" "secrets/key.pem") = "/work/secrets/key.pem" ∧
      ("/work/secrets/key.pem" : String) = "/work/secrets" ++ "/key.pem" ∧
      (∃ m e,
        classify env3.cwd "/work" false (refuseCanonicalList env3.cwd "/work" ["secrets"])
            env3.fs0 ["secrets/key.pem"] = .ok (m, e) ∧
          movePathsToTrash env3 orc0 ["secrets/key.pem"] "/work" false ["secrets"] =
            runBatch env3 orc0 m e) :=
  ⟨by decide, by decide, by decide,
    refusal_exact_match_only env3 orc0 ["secrets/key.pem"] "/work" false ["secrets"]
      (by decide)⟩

/-- Claim C4: in a refusal-free batch, `missing` is exactly the raw strings
of nonexistent inputs when `allowMissing` is false, and empty when it is
true; in both cases the batch continues into `runBatch` with the full list
of existing raw/absolute pairs (existing paths are still attempted, and
nonexistent paths are excluded from the to-move set, hence from per-item
errors). -/
theorem missing_characterization (env : TrashEnv) (orc : FsOracle) (paths : List String)
    (baseDir : String) (allowMissing : Bool) (refusePaths : List String)
    (h : ∀ p ∈ paths, normalize (resolvePath env.cwd baseDir p) ∉
      refuseCanonicalList env.cwd baseDir refusePaths) :
    (movePathsToTrash env orc paths baseDir allowMissing refusePaths).1.missing =
        (if allowMissing then []
         else paths.filter (fun p => !decide (resolvePath env.cwd baseDir p ∈ env.fs0))) ∧
      movePathsToTrash env orc paths baseDir allowMissing refusePaths =
        runBatch env orc
          (if allowMissing then []
           else paths.filter (fun p => !decide (resolvePath env.cwd baseDir p ∈ env.fs0)))
          ((paths.filter (fun p => decide (resolvePath env.cwd baseDir p ∈ env.fs0))).map
            (fun p => (p, resolvePath env.cwd baseDir p))) := by
  have hc := classify_ok_of_no_offense env.cwd baseDir allowMissing _ env.fs0 paths h
  have hmv : movePathsToTrash env orc paths baseDir allowMissing refusePaths =
      runBatch env orc
        (if allowMissing then []
         else paths.filter (fun p => !decide (resolvePath env.cwd baseDir p ∈ env.fs0)))
        ((paths.filter (fun p => decide (resolvePath env.cwd baseDir p ∈ env.fs0))).map
          (fun p => (p, resolvePath env.cwd baseDir p))) := by
    simp [movePathsToTrash, hc]
  exact ⟨by rw [hmv]; exact runBatch_missing env orc _ _, hmv⟩

/-- Witness for C4: with `/w/a` existing and `missing.txt` not, under
`allowMissing = false` the missing list is the nonexistent filter and the
existing pair is still passed on. -/
theorem missing_characterization_witness :
    (movePathsToTrash env4 orc0 ["a", "missing.txt"] "/w" false []).1.missing =
        (if false then []
         else ["a", "missing.txt"].filter
           (fun p => !decide (resolvePath env4.cwd "/w" p ∈ env4.fs0))) ∧
      movePathsToTrash env4 orc0 ["a", "missing.txt"] "/w" false [] =
        runBatch env4 orc0
          (if false then []
           else ["a", "missing.txt"].filter
             (fun p => !decide (resolvePath env4.cwd "/w" p ∈ env4.fs0)))
          ((["a", "missing.txt"].filter
              (fun p => decide (resolvePath env4.cwd "/w" p ∈ env4.fs0))).map
            (fun p => (p, resolvePath env4.cwd "/w" p))) :=
  missing_characterization env4 orc0 ["a", "missing.txt"] "/w" false [] (by decide)

/-- Claim C5: collision-safe naming in the direct fallback.  For two items
sharing a base name processed in the same batch, with both renames
succeeding, the two chosen destinations are distinct, each destination is
free at the moment of its rename (so neither overwrites the other), and the
loop moves both items. -/
theorem shared_basename_distinct_targets (trashDir : String) (orc : FsOracle)
    (tsOf : Nat → Nat) (fs : Finset String) (r1 a1 r2 a2 : String)
    (hbase : basename a1 = basename a2)
    (h1 : orc.renameErr a1 (buildTrashTarget fs trashDir a1 (tsOf 0)) = none)
    (h2 : orc.renameErr a2
      (buildTrashTarget (insert (buildTrashTarget fs trashDir a1 (tsOf 0)) (fs.erase a1))
        trashDir a2 (tsOf 1)) = none) :
    buildTrashTarget fs trashDir a1 (tsOf 0) ≠
        buildTrashTarget (insert (buildTrashTarget fs trashDir a1 (tsOf 0)) (fs.erase a1))
          trashDir a2 (tsOf 1) ∧
      buildTrashTarget fs trashDir a1 (tsOf 0) ∉ fs ∧
      buildTrashTarget (insert (buildTrashTarget fs trashDir a1 (tsOf 0)) (fs.erase a1))
          trashDir a2 (tsOf 1) ∉
        insert (buildTrashTarget fs trashDir a1 (tsOf 0)) (fs.erase a1) ∧
      moveLoop trashDir orc tsOf 0 [(r1, a1), (r2, a2)] fs =
        ([],
          insert
            (buildTrashTarget (insert (buildTrashTarget fs trashDir a1 (tsOf 0)) (fs.erase a1))
              trashDir a2 (tsOf 1))
            ((insert (buildTrashTarget fs trashDir a1 (tsOf 0)) (fs.erase a1)).erase a2)) := by
  have hn1 : buildTrashTarget fs trashDir a1 (tsOf 0) ∉ fs :=
    buildTrashTarget_not_mem fs trashDir a1 (tsOf 0)
  have hn2 : buildTrashTarget (insert (buildTrashTarget fs trashDir a1 (tsOf 0)) (fs.erase a1))
      trashDir a2 (tsOf 1) ∉
      insert (buildTrashTarget fs trashDir a1 (tsOf 0)) (fs.erase a1) :=
    buildTrashTarget_not_mem _ trashDir a2 (tsOf 1)
  have hne : buildTrashTarget fs trashDir a1 (tsOf 0) ≠
      buildTrashTarget (insert (buildTrashTarget fs trashDir a1 (tsOf 0)) (fs.erase a1))
        trashDir a2 (tsOf 1) := by
    intro h
    exact hn2 (h ▸ Finset.mem_insert_self _ _)
  refine ⟨hne, hn1, hn2, ?_⟩
  simp [moveLoop, moveOne, h1, h2]

/-- Witness for C5: two sources `/w/x` and `/v/x` with shared base name `x`
moved into `/T` on an empty filesystem get distinct free destinations. -/
theorem shared_basename_distinct_targets_witness :
    buildTrashTarget (∅ : Finset String) "/T" "/w/x" 0 ≠
        buildTrashTarget
          (insert (buildTrashTarget (∅ : Finset String) "/T" "/w/x" 0)
            ((∅ : Finset String).erase "/w/x")) "/T" "/v/x" 0 ∧
      buildTrashTarget (∅ : Finset String) "/T" "/w/x" 0 ∉ (∅ : Finset String) ∧
      buildTrashTarget
          (insert (buildTrashTarget (∅ : Finset String) "/T" "/w/x" 0)
            ((∅ : Finset String).erase "/w/x")) "/T" "/v/x" 0 ∉
        insert (buildTrashTarget (∅ : Finset String) "/T" "/w/x" 0)
          ((∅ : Finset String).erase "/w/x") ∧
      moveLoop "/T" orc0 (fun _ => 0) 0 [("x1", "/w/x"), ("x2", "/v/x")] (∅ : Finset String) =
        ([],
          insert
            (buildTrashTarget
              (insert (buildTrashTarget (∅ : Finset String) "/T" "/w/x" 0)
                ((∅ : Finset String).erase "/w/x")) "/T" "/v/x" 0)
            ((insert (buildTrashTarget (∅ : Finset String) "/T" "/w/x" 0)
              ((∅ : Finset String).erase "/w/x")).erase "/v/x")) :=
  shared_basename_distinct_targets "/T" orc0 (fun _ => 0) (∅ : Finset String)
    "x1" "/w/x" "x2" "/v/x" (by decide) rfl rfl

/-- Claim C6: per-item failure isolation in the direct fallback.  Every
per-item failure other than a successfully handled cross-device rename is
caught, recorded as `"Failed to move <raw> to Trash: <reason>"` using the
item's raw input string, and the loop continues with the remaining items:
a rename failure with a non-`EXDEV` cause leaves the item's state
untouched; a `cpSync` failure inside the `EXDEV` fallback likewise; a
`rmSync` failure inside the `EXDEV` fallback leaves the already-copied
destination in place.  In every mode the earlier items' moves are kept (no
rollback) and the later items are still processed from the resulting
state. -/
theorem per_item_failure_isolated (trashDir : String) (orc : FsOracle) (tsOf : Nat → Nat)
    (i : Nat) (xs ys : List (String × String)) (raw absolute : String) (fs : Finset String)
    (e : JsError)
    (hrn : orc.renameErr absolute
      (buildTrashTarget (moveLoop trashDir orc tsOf i xs fs).2 trashDir absolute
        (tsOf (i + xs.length))) = some e) :
    (isCrossDeviceError e = false →
      moveLoop trashDir orc tsOf i (xs ++ (raw, absolute) :: ys) fs =
        ((moveLoop trashDir orc tsOf i xs fs).1 ++
            ("Failed to move " ++ raw ++ " to Trash: " ++ formatTrashError e) ::
              (moveLoop trashDir orc tsOf (i + xs.length + 1) ys
                (moveLoop trashDir orc tsOf i xs fs).2).1,
          (moveLoop trashDir orc tsOf (i + xs.length + 1) ys
            (moveLoop trashDir orc tsOf i xs fs).2).2)) ∧
      (isCrossDeviceError e = true →
        ∀ ce, orc.cpErr absolute
            (buildTrashTarget (moveLoop trashDir orc tsOf i xs fs).2 trashDir absolute
              (tsOf (i + xs.length))) = some ce →
          moveLoop trashDir orc tsOf i (xs ++ (raw, absolute) :: ys) fs =
            ((moveLoop trashDir orc tsOf i xs fs).1 ++
                ("Failed to move " ++ raw ++ " to Trash: " ++ formatTrashError ce) ::
                  (moveLoop trashDir orc tsOf (i + xs.length + 1) ys
                    (moveLoop trashDir orc tsOf i xs fs).2).1,
              (moveLoop trashDir orc tsOf (i + xs.length + 1) ys
                (moveLoop trashDir orc tsOf i xs fs).2).2)) ∧
      (isCrossDeviceError e = true →
        orc.cpErr absolute
            (buildTrashTarget (moveLoop trashDir orc tsOf i xs fs).2 trashDir absolute
              (tsOf (i + xs.length))) = none →
        ∀ re, orc.rmErr absolute = some re →
          moveLoop trashDir orc tsOf i (xs ++ (raw, absolute) :: ys) fs =
            ((moveLoop trashDir orc tsOf i xs fs).1 ++
                ("Failed to move " ++ raw ++ " to Trash: " ++ formatTrashError re) ::
                  (moveLoop trashDir orc tsOf (i + xs.length + 1) ys
                    (insert
                      (buildTrashTarget (moveLoop trashDir orc tsOf i xs fs).2 trashDir
                        absolute (tsOf (i + xs.length)))
                      (moveLoop trashDir orc tsOf i xs fs).2)).1,
              (moveLoop trashDir orc tsOf (i + xs.length + 1) ys
                (insert
                  (buildTrashTarget (moveLoop trashDir orc tsOf i xs fs).2 trashDir
                    absolute (tsOf (i + xs.length)))
                  (moveLoop trashDir orc tsOf i xs fs).2)).2)) := by
  refine ⟨?_, ?_, ?_⟩
  · intro hnx
    rw [moveLoop_append trashDir orc tsOf xs ((raw, absolute) :: ys) i fs]
    simp [moveLoop, moveOne, hrn, hnx]
  · intro hx ce hcp
    rw [moveLoop_append trashDir orc tsOf xs ((raw, absolute) :: ys) i fs]
    simp [moveLoop, moveOne, hrn, hx, hcp]
  · intro hx hcp re hrm
    rw [moveLoop_append trashDir orc tsOf xs ((raw, absolute) :: ys) i fs]
    simp [moveLoop, moveOne, hrn, hx, hcp, hrm]

/-- Witness for C6, exercising all three failure modes: `a` fails (with
`EPERM` at the rename, with `EACCES` at the cross-device copy, with
`EBUSY` at the cross-device remove, under the respective oracles), yet in
each case its error is recorded with the claimed format and `b` is still
processed. -/
theorem per_item_failure_isolated_witness :
    (moveLoop "/T" orcE (fun _ => 0) 0 ([] ++ ("a", "/w/a") :: [("b", "/w/b")])
        ({"/w/a", "/w/b"} : Finset String) =
      ((moveLoop "/T" orcE (fun _ => 0) 0 [] ({"/w/a", "/w/b"} : Finset String)).1 ++
          ("Failed to move " ++ "a" ++ " to Trash: " ++
              formatTrashError (.mk "permission denied" (some "EPERM"))) ::
            (moveLoop "/T" orcE (fun _ => 0) (0 + List.length ([] : List (String × String)) + 1)
              [("b", "/w/b")]
              (moveLoop "/T" orcE (fun _ => 0) 0 [] ({"/w/a", "/w/b"} : Finset String)).2).1,
        (moveLoop "/T" orcE (fun _ => 0) (0 + List.length ([] : List (String × String)) + 1)
          [("b", "/w/b")]
          (moveLoop "/T" orcE (fun _ => 0) 0 [] ({"/w/a", "/w/b"} : Finset String)).2).2)) ∧
      (moveLoop "/T" orcXC (fun _ => 0) 0 ([] ++ ("a", "/w/a") :: [("b", "/w/b")])
          ({"/w/a", "/w/b"} : Finset String) =
        ((moveLoop "/T" orcXC (fun _ => 0) 0 [] ({"/w/a", "/w/b"} : Finset String)).1 ++
            ("Failed to move " ++ "a" ++ " to Trash: " ++
                formatTrashError (.mk "copy failed" (some "EACCES"))) ::
              (moveLoop "/T" orcXC (fun _ => 0)
                (0 + List.length ([] : List (String × String)) + 1) [("b", "/w/b")]
                (moveLoop "/T" orcXC (fun _ => 0) 0 [] ({"/w/a", "/w/b"} : Finset String)).2).1,
          (moveLoop "/T" orcXC (fun _ => 0)
            (0 + List.length ([] : List (String × String)) + 1) [("b", "/w/b")]
            (moveLoop "/T" orcXC (fun _ => 0) 0 [] ({"/w/a", "/w/b"} : Finset String)).2).2)) ∧
      (moveLoop "/T" orcXR (fun _ => 0) 0 ([] ++ ("a", "/w/a") :: [("b", "/w/b")])
          ({"/w/a", "/w/b"} : Finset String) =
        ((moveLoop "/T" orcXR (fun _ => 0) 0 [] ({"/w/a", "/w/b"} : Finset String)).1 ++
            ("Failed to move " ++ "a" ++ " to Trash: " ++
                formatTrashError (.mk "remove failed" (some "EBUSY"))) ::
              (moveLoop "/T" orcXR (fun _ => 0)
                (0 + List.length ([] : List (String × String)) + 1) [("b", "/w/b")]
                (insert
                  (buildTrashTarget
                    (moveLoop "/T" orcXR (fun _ => 0) 0 []
                      ({"/w/a", "/w/b"} : Finset String)).2 "/T" "/w/a" 0)
                  (moveLoop "/T" orcXR (fun _ => 0) 0 []
                    ({"/w/a", "/w/b"} : Finset String)).2)).1,
          (moveLoop "/T" orcXR (fun _ => 0)
            (0 + List.length ([] : List (String × String)) + 1) [("b", "/w/b")]
            (insert
              (buildTrashTarget
                (moveLoop "/T" orcXR (fun _ => 0) 0 []
                  ({"/w/a", "/w/b"} : Finset String)).2 "/T" "/w/a" 0)
              (moveLoop "/T" orcXR (fun _ => 0) 0 []
                ({"/w/a", "/w/b"} : Finset String)).2)).2)) :=
  ⟨(per_item_failure_isolated "/T" orcE (fun _ => 0) 0 [] [("b", "/w/b")] "a" "/w/a"
      ({"/w/a", "/w/b"} : Finset String) (.mk "permission denied" (some "EPERM")) rfl).1
    (by decide),
    (per_item_failure_isolated "/T" orcXC (fun _ => 0) 0 [] [("b", "/w/b")] "a" "/w/a"
        ({"/w/a", "/w/b"} : Finset String)
        (.mk "cross-device link not permitted" (some "EXDEV")) rfl).2.1
      (by decide) (.mk "copy failed" (some "EACCES")) rfl,
    (per_item_failure_isolated "/T" orcXR (fun _ => 0) 0 [] [("b", "/w/b")] "a" "/w/a"
        ({"/w/a", "/w/b"} : Finset String)
        (.mk "cross-device link not permitted" (some "EXDEV")) rfl).2.2
      (by decide) rfl (.mk "remove failed" (some "EBUSY")) rfl⟩

/-- Claim C7: cross-device handling.  When the rename throws an error whose
`code` is `EXDEV` and the recursive copy and force-remove both succeed, the
item is moved in two steps: afterwards the chosen trash destination exists
and the original path does not, and no error is recorded.  A rename failure
with any other cause is not handled this way: it is recorded as a per-item
error and the filesystem is left unchanged. -/
theorem cross_device_two_step (trashDir : String) (orc : FsOracle) (timestamp : Nat)
    (raw absolute : String) (fs : Finset String) (e : JsError)
    (hrn : orc.renameErr absolute (buildTrashTarget fs trashDir absolute timestamp) = some e) :
    (isCrossDeviceError e = true →
      orc.cpErr absolute (buildTrashTarget fs trashDir absolute timestamp) = none →
      orc.rmErr absolute = none → absolute ∈ fs →
      moveOne trashDir orc timestamp raw absolute fs =
          (none, (insert (buildTrashTarget fs trashDir absolute timestamp) fs).erase absolute) ∧
        buildTrashTarget fs trashDir absolute timestamp ∈
          (insert (buildTrashTarget fs trashDir absolute timestamp) fs).erase absolute ∧
        absolute ∉ (insert (buildTrashTarget fs trashDir absolute timestamp) fs).erase absolute) ∧
      (isCrossDeviceError e = false →
        moveOne trashDir orc timestamp raw absolute fs =
          (some ("Failed to move " ++ raw ++ " to Trash: " ++ formatTrashError e), fs)) := by
  constructor
  · intro hx hcp hrm hmem
    have hne : buildTrashTarget fs trashDir absolute timestamp ≠ absolute := by
      intro h
      exact buildTrashTarget_not_mem fs trashDir absolute timestamp (by rw [h]; exact hmem)
    refine ⟨by simp [moveOne, hrn, hx, hcp, hrm], ?_, Finset.not_mem_erase absolute _⟩
    exact Finset.mem_erase.mpr ⟨hne, Finset.mem_insert_self _ _⟩
  · intro hx
    simp [moveOne, hrn, hx]

/-- Witness for C7: a concrete `EXDEV` rename failure on `/w/a` with copy
and remove succeeding. -/
theorem cross_device_two_step_witness :
    (isCrossDeviceError (.mk "cross-device link not permitted" (some "EXDEV")) = true →
      orcX.cpErr "/w/a" (buildTrashTarget ({"/w/a"} : Finset String) "/h/.Trash" "/w/a" 0) = none →
      orcX.rmErr "/w/a" = none → "/w/a" ∈ ({"/w/a"} : Finset String) →
      moveOne "/h/.Trash" orcX 0 "a" "/w/a" ({"/w/a"} : Finset String) =
          (none,
            (insert (buildTrashTarget ({"/w/a"} : Finset String) "/h/.Trash" "/w/a" 0)
              ({"/w/a"} : Finset String)).erase "/w/a") ∧
        buildTrashTarget ({"/w/a"} : Finset String) "/h/.Trash" "/w/a" 0 ∈
          (insert (buildTrashTarget ({"/w/a"} : Finset String) "/h/.Trash" "/w/a" 0)
            ({"/w/a"} : Finset String)).erase "/w/a" ∧
        "/w/a" ∉
          (insert (buildTrashTarget ({"/w/a"} : Finset String) "/h/.Trash" "/w/a" 0)
            ({"/w/a"} : Finset String)).erase "/w/a") ∧
      (isCrossDeviceError (.mk "cross-device link not permitted" (some "EXDEV")) = false →
        moveOne "/h/.Trash" orcX 0 "a" "/w/a" ({"/w/a"} : Finset String) =
          (some ("Failed to move " ++ "a" ++ " to Trash: " ++
              formatTrashError (.mk "cross-device link not permitted" (some "EXDEV"))),
            ({"/w/a"} : Finset String))) :=
  cross_device_two_step "/h/.Trash" orcX 0 "a" "/w/a" ({"/w/a"} : Finset String)
    (.mk "cross-device link not permitted" (some "EXDEV")) rfl

/-- Claim C8: the helper probe.  On a cold cache it returns (and caches)
the first candidate, in candidate order, whose probe qualifies, or `none`
when no candidate qualifies (it never throws: every spawn outcome, thrown
spawns included, is handled and the function returns normally for every
environment); a candidate qualifies exactly when its help invocation exits
with status 0 or 1; and every call on a warm cache returns the cached value
without consulting the probe. -/
theorem findTrashCliCommand_spec (env : ProbeEnv) :
    findTrashCliCommand env none =
        ((allCandidatePaths env).find? (qualifies env.probe),
          some ((allCandidatePaths env).find? (qualifies env.probe))) ∧
      (∀ v, findTrashCliCommand env (some v) = (v, some v)) ∧
      ∀ c, qualifies env.probe c = true ↔
        (env.probe c = some 0 ∨ env.probe c = some 1) := by
  refine ⟨?_, fun v => rfl, ?_⟩
  · simp [findTrashCliCommand, probeCandidates_eq_find]
  · intro c
    unfold qualifies
    cases h : env.probe c with
    | none => simp
    | some code => by_cases h0 : code = 0 <;> by_cases h1 : code = 1 <;> simp [h0, h1]

/-- Claim C9: `buildTrashTarget` terminates for every (finite) trash state
and the name it returns does not exist at that moment; moreover it is the
first candidate of the loop's sequence (plain base name, then
timestamp-suffixed, then increasing numeric suffixes) that is free — every
earlier candidate was occupied. -/
theorem buildTrashTarget_terminates_fresh (fs : Finset String)
    (trashDir absolutePath : String) (timestamp : Nat) :
    buildTrashTarget fs trashDir absolutePath timestamp ∉ fs ∧
      ∃ n, buildTrashTarget fs trashDir absolutePath timestamp =
          candName trashDir (basename absolutePath) timestamp n ∧
        ∀ m, m < n → candName trashDir (basename absolutePath) timestamp m ∈ fs :=
  buildTrashTarget_spec fs trashDir absolutePath timestamp

/-- Claim C10: no input deduplication.  In a refusal-free batch, a raw path
`p` that exists and occurs `k` times is put `k` times into the to-move set
(counting raw/absolute pairs), so the helper argv — built from exactly the
to-move absolutes — receives its absolute `k` times (assuming no other raw
input aliases the same absolute), and the direct fallback correspondingly
attempts `k` independent moves. -/
theorem no_input_dedup (env : TrashEnv) (orc : FsOracle) (paths : List String)
    (baseDir : String) (allowMissing : Bool) (refusePaths : List String) (p : String)
    (hno : ∀ q ∈ paths, normalize (resolvePath env.cwd baseDir q) ∉
      refuseCanonicalList env.cwd baseDir refusePaths)
    (hex : resolvePath env.cwd baseDir p ∈ env.fs0)
    (hdis : ∀ q ∈ paths, q ≠ p →
      resolvePath env.cwd baseDir q ≠ resolvePath env.cwd baseDir p) :
    ((paths.filter (fun q => decide (resolvePath env.cwd baseDir q ∈ env.fs0))).map
        (fun q => (q, resolvePath env.cwd baseDir q))).count
        (p, resolvePath env.cwd baseDir p) = paths.count p ∧
      ((paths.filter (fun q => decide (resolvePath env.cwd baseDir q ∈ env.fs0))).map
          (fun q => resolvePath env.cwd baseDir q)).count (resolvePath env.cwd baseDir p) =
        paths.count p ∧
      movePathsToTrash env orc paths baseDir allowMissing refusePaths =
        runBatch env orc
          (if allowMissing then []
           else paths.filter (fun q => !decide (resolvePath env.cwd baseDir q ∈ env.fs0)))
          ((paths.filter (fun q => decide (resolvePath env.cwd baseDir q ∈ env.fs0))).map
            (fun q => (q, resolvePath env.cwd baseDir q))) := by
  refine ⟨count_filter_map_pair _ env.fs0 p hex paths,
    count_filter_map_snd _ env.fs0 p hex paths hdis, ?_⟩
  have hc := classify_ok_of_no_offense env.cwd baseDir allowMissing _ env.fs0 paths hno
  simp [movePathsToTrash, hc]

/-- Witness for C10: the batch `["a", "a"]` with `/w/a` existing yields the
pair and its absolute each counted twice in the to-move data. -/
theorem no_input_dedup_witness :
    ((["a", "a"].filter (fun q => decide (resolvePath env4.cwd "/w" q ∈ env4.fs0))).map
        (fun q => (q, resolvePath env4.cwd "/w" q))).count
        ("a", resolvePath env4.cwd "/w" "a") = ["a", "a"].count "a" ∧
      ((["a", "a"].filter (fun q => decide (resolvePath env4.cwd "/w" q ∈ env4.fs0))).map
          (fun q => resolvePath env4.cwd "/w" q)).count (resolvePath env4.cwd "/w" "a") =
        ["a", "a"].count "a" ∧
      movePathsToTrash env4 orc0 ["a", "a"] "/w" false [] =
        runBatch env4 orc0
          (if false then []
           else ["a", "a"].filter (fun q => !decide (resolvePath env4.cwd "/w" q ∈ env4.fs0)))
          ((["a", "a"].filter (fun q => decide (resolvePath env4.cwd "/w" q ∈ env4.fs0))).map
            (fun q => (q, resolvePath env4.cwd "/w" q))) :=
  no_input_dedup env4 orc0 ["a", "a"] "/w" false [] "a" (by decide) (by decide) (by decide)

end Trash
